import Mathlib

/-!
Verification of the linkme extraction core (src/linkme.ts).

Strings from the page are modelled as Lean `String` (lists of unicode
scalar values); all characters appearing in the development are in the
basic multilingual plane, so JS UTF-16 index arithmetic coincides with
character counting.  DOM queries performed by the rules are modelled as
fields of a page-state record holding the query results; pure string
computations of the source are embedded directly.
-/

/-- JS whitespace class `\s`, restricted to its ASCII members (space, tab,
newline, carriage return, vertical tab, form feed).  All inputs considered
in this development use only these. -/
def isWs (c : Char) : Bool :=
  c = ' ' || c = '\t' || c = '\n' || c = '\r' || c = '\x0b' || c = '\x0c'

/-- JS line terminators (not matched by `.` in a regex without the `s` flag).
The astral terminators U+2028/U+2029 are included. -/
def isLineTerm (c : Char) : Bool :=
  c = '\n' || c = '\r' || c = ' ' || c = ' '

/-- Test `leadsWith pat l`: holds when `pat` is an initial segment of `l`
(JS `String.prototype.startsWith`). -/
def leadsWith : List Char → List Char → Bool
  | [], _ => true
  | _ :: _, [] => false
  | a :: as, b :: bs => a == b && leadsWith as bs

/-- Test `containsSub pat l`: holds when `pat` occurs as a contiguous substring
of `l` (JS `String.prototype.includes`). -/
def containsSub (pat : List Char) : List Char → Bool
  | [] => leadsWith pat []
  | c :: cs => leadsWith pat (c :: cs) || containsSub pat cs

/-- Test `trailsWith pat l`: holds when `pat` is a final segment of `l`
(JS `String.prototype.endsWith`). -/
def trailsWith (pat l : List Char) : Bool :=
  leadsWith pat.reverse l.reverse

/-- JS `s.includes(pat)` on `String`. -/
def jsIncludes (s pat : String) : Bool := containsSub pat.data s.data

/-- JS `s.startsWith(pat)` on `String`. -/
def jsStartsWith (s pat : String) : Bool := leadsWith pat.data s.data

/-- JS `s.endsWith(pat)` on `String`. -/
def jsEndsWith (s pat : String) : Bool := trailsWith pat.data s.data

/-- Collapse every whitespace run to a single space: the effect of the
source's `replace(/\s+/g, " ")` (linkme.ts:231 and similar sites). -/
def collapseWs : List Char → List Char
  | [] => []
  | [c] => if isWs c then [' '] else [c]
  | c :: d :: cs =>
    if isWs c then
      if isWs d then collapseWs (d :: cs)
      else ' ' :: collapseWs (d :: cs)
    else c :: collapseWs (d :: cs)

/-- Remove a trailing whitespace run. -/
def trimEndWs : List Char → List Char
  | [] => []
  | c :: cs =>
    match trimEndWs cs with
    | [] => if isWs c then [] else [c]
    | x :: xs => c :: x :: xs

/-- JS `String.prototype.trim`: strip leading and trailing whitespace. -/
def trimWs (l : List Char) : List Char :=
  trimEndWs (l.dropWhile isWs)

/-- JS `s.trim()` on `String`. -/
def jsTrim (s : String) : String := String.mk (trimWs s.data)

/-- Value of a list of decimal digit characters. -/
def digitsToNat (l : List Char) : Nat :=
  l.foldl (fun n c => 10 * n + (c.toNat - 48)) 0

/-- Parse a numeric character reference body: for input `#123;rest` yield
the referenced character and the number of characters consumed
(`#`, the digits and the closing `;`). -/
def numRefLen? (rest : List Char) : Option (Char × Nat) :=
  match rest with
  | '#' :: rest1 =>
    match rest1.takeWhile Char.isDigit, rest1.dropWhile Char.isDigit with
    | _ :: _, ';' :: _ =>
      some (Char.ofNat (digitsToNat (rest1.takeWhile Char.isDigit)),
            1 + (rest1.takeWhile Char.isDigit).length + 1)
    | _, _ => none
  | _ => none

/-- Modelled from the spec: "decodes HTML entities (via an offscreen
parsing surface)" — the browser's RCDATA character-reference decoding
invoked through `textarea.innerHTML = content; textarea.value`
(linkme.ts:226-228).  This platform facility is not part of the
repository; it is modelled for the named entities `amp`, `lt`, `gt`,
`quot` and decimal numeric references, which decode a character reference
once (the decoded output is not rescanned). -/
def decodeEnt : List Char → List Char
  | [] => []
  | c :: rest =>
    if c = '&' then
      if leadsWith "amp;".data rest then '&' :: decodeEnt (rest.drop 4)
      else if leadsWith "lt;".data rest then '<' :: decodeEnt (rest.drop 3)
      else if leadsWith "gt;".data rest then '>' :: decodeEnt (rest.drop 3)
      else if leadsWith "quot;".data rest then '"' :: decodeEnt (rest.drop 5)
      else
        match numRefLen? rest with
        | some (ch, n) => ch :: decodeEnt (rest.drop n)
        | none => '&' :: decodeEnt rest
    else c :: decodeEnt rest
termination_by l => l.length
decreasing_by
  · simp [List.length_drop]; omega
  · simp [List.length_drop]; omega
  · simp [List.length_drop]; omega
  · simp [List.length_drop]; omega
  · simp [List.length_drop]; omega
  · simp
  · simp

/-- String-level entity decoding. -/
def decodeEntStr (s : String) : String := String.mk (decodeEnt s.data)

/-- The normalizer `cleanupContent` (linkme.ts:222-234): on the empty string return it
unchanged (the `!content` guard); otherwise decode HTML entities, collapse
every whitespace run to a single space and trim both ends. -/
def cleanupContent (s : String) : String :=
  if s = "" then s
  else String.mk (trimWs (collapseWs (decodeEnt s.data)))

/-- A list is in collapsed form: every whitespace character in it is a
plain space and no two adjacent characters are both whitespace. -/
def collapsedOk : List Char → Bool
  | [] => true
  | [c] => !(isWs c) || c == ' '
  | c :: d :: cs => (!(isWs c) || (c == ' ' && !(isWs d))) && collapsedOk (d :: cs)

/-- The composite whitespace normalization used by `cleanupContent` and the
monitor-title cleanup: collapse runs then trim ends. -/
def collapseTrim (l : List Char) : List Char := trimWs (collapseWs l)

/-- The curly-tag scanner: JS `title.match(/\{[^}]*:[^}]*\}/g)`
(linkme.ts:827).  At a `{`, the tail `[^}]*:[^}]*\}` matches exactly when
a `:` occurs strictly before the first following `}`, and after greedy
backtracking the match extends to that first `}`.  Scanning is leftmost
and non-overlapping; a failed start position advances by one character. -/
def matchCurlyTags : List Char → List (List Char)
  | [] => []
  | c :: cs =>
    if c = '\x7b' then
      match hrest : cs.dropWhile (fun x => !(x == '\x7d')) with
      | '\x7d' :: rest2 =>
        if (cs.takeWhile (fun x => !(x == '\x7d'))).contains ':' then
          ('\x7b' :: cs.takeWhile (fun x => !(x == '\x7d')) ++ ['\x7d'])
            :: matchCurlyTags rest2
        else matchCurlyTags cs
      | _ => matchCurlyTags cs
    else matchCurlyTags cs
termination_by l => l.length
decreasing_by
  all_goals
    have hle : (List.dropWhile (fun x => !(x == '\x7d')) cs).length ≤ cs.length :=
      (List.dropWhile_sublist _).length_le
    first
      | (rw [hrest] at hle; simp at hle ⊢; omega)
      | simp
      | (simp; omega)

/-- One iteration of the tag-removal loop body (linkme.ts:835-838): the
global regex replacement of `\s*T\s*` by a single space, for the literal
tag `T = tag0 :: tagRest` (tags are nonempty and start with the
non-whitespace `{`, so inside a whitespace run a match can only begin at
the run's end, which yields this direct scan of the JS semantics). -/
def repTagGo (tag0 : Char) (tagRest : List Char) : List Char → List Char
  | [] => []
  | c :: cs =>
    if leadsWith (tag0 :: tagRest) (c :: cs) then
      ' ' :: repTagGo tag0 tagRest (((c :: cs).drop (tagRest.length + 1)).dropWhile isWs)
    else if isWs c then
      if leadsWith (tag0 :: tagRest) (cs.dropWhile isWs) then
        ' ' :: repTagGo tag0 tagRest
          (((cs.dropWhile isWs).drop (tagRest.length + 1)).dropWhile isWs)
      else (c :: cs.takeWhile isWs) ++ repTagGo tag0 tagRest (cs.dropWhile isWs)
    else c :: repTagGo tag0 tagRest cs
termination_by l => l.length
decreasing_by
  · have h1 : (((c :: cs).drop (tagRest.length + 1)).dropWhile isWs).length ≤
        ((c :: cs).drop (tagRest.length + 1)).length :=
      (List.dropWhile_sublist _).length_le
    simp at h1 ⊢
    omega
  · have h1 : ((cs.dropWhile isWs).drop (tagRest.length + 1)).length ≤
        (cs.dropWhile isWs).length := by simp
    have h2 : (cs.dropWhile isWs).length ≤ cs.length :=
      (List.dropWhile_sublist _).length_le
    have h3 : (((cs.dropWhile isWs).drop (tagRest.length + 1)).dropWhile isWs).length ≤
        ((cs.dropWhile isWs).drop (tagRest.length + 1)).length :=
      (List.dropWhile_sublist _).length_le
    simp at h1 h3 ⊢
    omega
  · have h2 : (cs.dropWhile isWs).length ≤ cs.length :=
      (List.dropWhile_sublist _).length_le
    simp
    omega
  · simp

/-- The removal loop over all matched tags (linkme.ts:834-838): sequential
global replacement, one tag at a time, in match order. -/
def removeTagsSeq (tags : List (List Char)) (l : List Char) : List Char :=
  tags.foldl (fun acc tag =>
    match tag with
    | [] => acc
    | t0 :: tr => repTagGo t0 tr acc) l

/-- Strip the leading alert marker:
`title.replace(new RegExp("^\\[" + alertType + "\\]\\s*"), "")`
(linkme.ts:822). -/
def stripMarker (alertType t : List Char) : List Char :=
  let mark := '[' :: alertType ++ [']']
  if leadsWith mark t then (t.drop mark.length).dropWhile isWs else t

/-- The curly-tag relocation step of the monitor rule (linkme.ts:827-848),
applied to the h3 text after marker stripping: when tags were matched,
clean the text by sequential tag replacement plus whitespace
normalization, then append the tag block, separated by one space exactly
when the trimmed pre-strip text already ended with the last tag. -/
def datadogRetitle (t : List Char) : List Char :=
  let curlyTags := matchCurlyTags t
  if curlyTags.isEmpty then t
  else
    let wasAtEnd := trailsWith (curlyTags.getLastD []) (trimWs t)
    let cleaned := collapseTrim (removeTagsSeq curlyTags t)
    cleaned ++ (if wasAtEnd then [' '] else []) ++ curlyTags.flatten

/-- Alert-h3 qualification (linkme.ts:797-804): the h3 text has a trigger
marker, and contains the h1 text whenever that is non-empty. -/
def ddQualifies (h1Text full : List Char) : Bool :=
  (if h1Text.isEmpty then true else containsSub h1Text full) &&
  (containsSub "[Triggered".data full || containsSub "[Warn".data full)

/-- The helper `getDatadogTimeRange` (linkme.ts:181-199): the date-range picker input
value wrapped as `" (value)"`; empty when the picker or input is absent or
its value is the empty string. -/
def getDatadogTimeRange (rangeValue : Option String) : String :=
  match rangeValue with
  | some v => if v = "" then "" else " (" ++ v ++ ")"
  | none => ""

/-- Alert type recorded for a selected h3 (linkme.ts:806-810): `Triggered`
is tested first. -/
def ddAlertType (full : List Char) : List Char :=
  if containsSub "[Triggered".data full then "Triggered".data else "Warn".data

/-- The title computed by the datadogMonitor extractor (linkme.ts:764-869)
from its DOM readings: `h1Raw` is the h1 text content (`none` when
`findElement` threw), `h3s` the h3 text contents in document order,
`rangeValue` the date-range picker input value, `docTitle` the document
title. -/
def datadogMonitorTitle (h1Raw : Option String) (h3s : List String)
    (rangeValue : Option String) (docTitle : String) : String :=
  let timeRange := getDatadogTimeRange rangeValue
  let h1Text := match h1Raw with | some t => jsTrim t | none => ""
  match h3s.find? (fun u => ddQualifies h1Text.data u.data) with
  | some full =>
    String.mk (datadogRetitle (stripMarker (ddAlertType full.data) full.data))
      ++ timeRange
  | none => if h1Text ≠ "" then h1Text ++ timeRange else docTitle ++ timeRange

/-- Claim-side reading of C3's cleaned text: every matched tag is removed
at its matched in-place span (replaced by a single space, in one
left-to-right pass over the original text); the claim then collapses
whitespace and trims the ends. -/
def specStripTagSpans : List Char → List Char
  | [] => []
  | c :: cs =>
    if c = '\x7b' then
      match hrest : cs.dropWhile (fun x => !(x == '\x7d')) with
      | '\x7d' :: rest2 =>
        if (cs.takeWhile (fun x => !(x == '\x7d'))).contains ':' then
          ' ' :: specStripTagSpans rest2
        else c :: specStripTagSpans cs
      | _ => c :: specStripTagSpans cs
    else c :: specStripTagSpans cs
termination_by l => l.length
decreasing_by
  all_goals
    have hle : (List.dropWhile (fun x => !(x == '\x7d')) cs).length ≤ cs.length :=
      (List.dropWhile_sublist _).length_le
    first
      | (rw [hrest] at hle; simp at hle ⊢; omega)
      | simp
      | (simp; omega)

/-- The title claim C3 predicts for a post-marker text with at least one
tag: claim-side cleaned text, then the tag block, with one separating
space exactly when the last tag already ended the pre-strip text. -/
def specPredictedTitle (t : List Char) : List Char :=
  let curlyTags := matchCurlyTags t
  collapseTrim (specStripTagSpans t) ++
    (if trailsWith (curlyTags.getLastD []) (trimWs t) then [' '] else []) ++
    curlyTags.flatten

/-- The h3 text of the C3 counterexample page: one matched tag is a proper
substring of a later matched tag. -/
def ddCexH3 : String := "[Triggered] x\x7d \x7ba:b\x7d w \x7bq:\x7ba:b\x7d"

/-- The C3 counterexample text after marker stripping. -/
def cexC3 : List Char := "x\x7d \x7ba:b\x7d w \x7bq:\x7ba:b\x7d".data

unseal matchCurlyTags repTagGo specStripTagSpans decodeEnt

/-- All start indices at which `sep` occurs in `l`, ascending. -/
def occIdxs (sep l : List Char) : List Nat :=
  (List.range (l.length + 1)).filter (fun i => leadsWith sep (l.drop i))

/-- JS `s.lastIndexOf(sep)`: last occurrence index, `-1` when absent. -/
def jsLastIndexOf (s sep : List Char) : Int :=
  match (occIdxs sep s).getLast? with
  | some i => (i : Int)
  | none => -1

/-- JS truthiness on a nullable string: `null` and `""` are falsy.  Used
wherever the source tests a nullable DOM string with `if (x)`. -/
def truthy : Option String → Option String
  | some "" => none
  | x => x

/-- The regex `/^(.*) - (+.)$/` with a greedy first group (the actual
source pattern is `/^(.*) - (.+)$/`, linkme.ts:262 and linkme.ts:602):
split at the last `" - "` having at least one character after it; `.` does
not match line terminators, so a title containing one never matches. -/
def jsMatchGreedyDash (t : List Char) : Option (List Char × List Char) :=
  if t.any isLineTerm then none
  else
    match ((occIdxs " - ".data t).filter (fun i => i + 3 < t.length)).getLast? with
    | some i => some (t.take i, t.drop (i + 3))
    | none => none

/-- The books.book truncation (linkme.ts:244-249): cut at the first colon
when one exists, trimming the kept part. -/
def truncAtColon (t : List Char) : List Char :=
  if t.contains ':' then trimWs (t.takeWhile (fun c => !(c == ':')))
  else t

/-- The service patterns of `getTitle` (linkme.ts:305-310), in source
order, with the service name produced by `match(pattern)[0].replace(" - ", "")`. -/
def serviceSuffixes : List (String × String) :=
  [(" - Google Maps", "Google Maps"),
   (" - Google Search", "Google Search"),
   (" - Bing Maps", "Bing Maps"),
   (" - Apple Maps", "Apple Maps")]

/-- The `"Place - Service"` final pass of `getTitle` (linkme.ts:312-324):
the first pattern whose suffix ends the title (with a line-terminator-free
prefix, from `(.*?)`) rewrites it to `"Place (Service)"`. -/
def serviceReformat (t : List Char) : List Char :=
  match serviceSuffixes.find? (fun pr =>
      trailsWith pr.1.data t && !((t.take (t.length - pr.1.length)).any isLineTerm)) with
  | some pr => t.take (t.length - pr.1.data.length) ++ (" (" ++ pr.2 ++ ")").data
  | none => t

/-- The page state: `window.location` parts, `document.title`, and the
results of the DOM queries each rule performs.  An `Option` field is
`none` when the corresponding element/attribute is absent (for the
`findElement` calls, when the lookup would throw). -/
structure Pg where
  protocol : String := "https:"
  host : String := ""
  hostname : String := ""
  origin : String := ""
  pathname : String := ""
  search : String := ""
  hash : String := ""
  docTitle : String := ""
  ogTitle : Option String := none
  ogType : Option String := none
  ogUrl : Option String := none
  schemaTitle : Option String := none
  schemaAuthor : Option String := none
  schemaUrl : Option String := none
  paperHeader : Option String := none
  amazonTitle : Option String := none
  amazonAsin : Option String := none
  graphiteAlt : Option String := none
  deployH4 : Option String := none
  ddH1 : Option String := none
  ddH3s : List String := []
  ddRange : Option String := none
  logsCode : Option String := none
  queryParam : Option String := none
  scorecardName : Option String := none
  contributor : Option String := none
  slackSaved : Bool := false
  slackAlso : Bool := false
  slackMsgFound : Bool := false
  slackSenderAttr : Option String := none
  slackTsFound : Bool := false
  slackTsHrefAttr : Option String := none
  slackTsDataTs : Option String := none
  slackChannelText : Option String := none
  slackMsgText : Option (String × String) := none
  slackContainerHtml : String := ""
  slackContainerText : String := ""
  slackDateFmt : String := ""

/-- The value `window.location.href`, assembled from its parts. -/
def pgHref (p : Pg) : String := p.origin ++ p.pathname ++ p.search ++ p.hash

/-- The schema.org / document-title part of `getTitle` (linkme.ts:285-326):
schema.org title (with author in parentheses when present), else the
normalized document title with the `"Place - Service"` final pass.  The
microdata accessors `getSchemaOrgTitle`/`getSchemaOrgAuthor` are
abstracted as the page-state fields holding their results (they return
`null` or non-empty text). -/
def getTitleSchema (p : Pg) : String :=
  match truthy p.schemaTitle with
  | some st =>
    match truthy p.schemaAuthor with
    | some a => cleanupContent st ++ " (" ++ cleanupContent a ++ ")"
    | none => cleanupContent st
  | none => String.mk (serviceReformat (cleanupContent p.docTitle).data)

/-- The resolver `getTitle` (linkme.ts:236-327): Open Graph title first (with the
books.book colon truncation and the YouTube `"Title - Channel"` split),
else the schema.org / document-title cascade. -/
def getTitle (p : Pg) : String :=
  match truthy p.ogTitle with
  | some og =>
    let cleaned0 := cleanupContent og
    let cleaned1 := if p.ogType = some "books.book" then String.mk (truncAtColon cleaned0.data) else cleaned0
    if jsIncludes p.hostname "youtube.com" || jsIncludes p.hostname "youtube." then
      match jsMatchGreedyDash cleaned1.data with
      | some (v, ch) => String.mk (trimWs v) ++ " (" ++ String.mk (trimWs ch) ++ ")"
      | none =>
        match truthy p.schemaAuthor with
        | some a => cleaned1 ++ " (" ++ a ++ ")"
        | none => cleaned1
    else cleaned1
  | none => getTitleSchema p

/-- The resolver `getUrl` (linkme.ts:329-344): Open Graph URL, else schema.org URL,
else the current location. -/
def getUrl (p : Pg) : String :=
  match truthy p.ogUrl with
  | some u => cleanupContent u
  | none =>
    match truthy p.schemaUrl with
    | some u => cleanupContent u
    | none => pgHref p

/-- The extraction result (linkme.ts:1-9): `link`, nullable `title`, and
the five optional fields set only by the slack extractor.  Absent optional
fields are `none` (the JS records simply omit them). -/
structure DocInfo where
  link : String
  title : Option String
  html : Option String := none
  text : Option String := none
  sender : Option String := none
  dateString : Option String := none
  channelName : Option String := none
deriving DecidableEq

/-- A rule (linkme.ts:11-14) paired with its registry name
(linkme.ts:1370-1390): a match predicate and an extractor, each of which
may throw (modelled by `Except Unit`). -/
structure NamedRule where
  name : String
  isMatch : Pg → Except Unit Bool
  extract : Pg → Except Unit DocInfo

/-- Modelled platform behavior for `decodeURIComponent` (used at
linkme.ts:996 and linkme.ts:1019): decode `%hh` byte escapes in the basic
range; multi-byte UTF-8 sequences and the malformed-input exception are
not modelled (no claim depends on them). -/
def hexVal? (c : Char) : Option Nat :=
  if c.isDigit then some (c.toNat - 48)
  else if 'a' ≤ c && c ≤ 'f' then some (c.toNat - 87)
  else if 'A' ≤ c && c ≤ 'F' then some (c.toNat - 55)
  else none

def decodePercent : List Char → List Char
  | [] => []
  | '%' :: c1 :: c2 :: rest =>
    match hexVal? c1, hexVal? c2 with
    | some v1, some v2 => Char.ofNat (16 * v1 + v2) :: decodePercent rest
    | _, _ => '%' :: decodePercent (c1 :: c2 :: rest)
  | c :: rest => c :: decodePercent rest

/-- The commit-title regex `/^(.*) · /` (linkme.ts:732): greedy group, so
the split is at the last `" · "` whose prefix is line-terminator-free. -/
def jsMatchDotSep (t : List Char) : Option (List Char) :=
  match ((occIdxs " · ".data t).filter (fun i => !((t.take i).any isLineTerm))).getLast? with
  | some i => some (t.take i)
  | none => none

/-- The notebook-title regex `/^(.*) \| Datadog$/` (linkme.ts:884). -/
def jsMatchPipeDatadog (t : List Char) : Option (List Char) :=
  if trailsWith " | Datadog".data t && !((t.take (t.length - 10)).any isLineTerm) then
    some (t.take (t.length - 10))
  else none

/-- The graphite title prefix strip `replace(/^#\d+\s+/, "")`
(linkme.ts:661). -/
def stripLeadHashNum (t : List Char) : List Char :=
  match t with
  | '#' :: rest =>
    let ds := rest.takeWhile Char.isDigit
    let r1 := rest.dropWhile Char.isDigit
    if ds ≠ [] && (r1.takeWhile isWs) ≠ [] then r1.dropWhile isWs else t
  | _ => t

/-- The graphite title suffix strip `replace(/\s+-\s+Graphite$/, "")`
(linkme.ts:662), implemented on the reversed list. -/
def stripGraphiteTail (t : List Char) : List Char :=
  let rt := t.reverse
  if leadsWith "etihparG".data rt then
    let r1 := rt.drop 8
    let w1 := r1.takeWhile isWs
    let r2 := r1.dropWhile isWs
    match w1, r2 with
    | _ :: _, '-' :: r3 =>
      if (r3.takeWhile isWs) ≠ [] then (r3.dropWhile isWs).reverse else t
    | _, _ => t
  else t

/-- The PR-title regex of `FigmaGithub.parsePRString` (linkme.ts:706-707):
`(?<title>.*) by (?<author>.*) · Pull Request #(?<pr>\d+) · (?<repo>.*)`,
with greedy groups resolved by trying the later separator occurrences
first.  Line-terminator subtleties of `.` are not modelled (titles with
newlines are out of scope of every claim). -/
def jsParsePR (s : List Char) :
    Option (List Char × List Char × List Char × List Char) :=
  ((occIdxs " by ".data s).reverse).findSome? (fun i =>
    let title := s.take i
    let rest := s.drop (i + 4)
    ((occIdxs " · Pull Request #".data rest).reverse).findSome? (fun j =>
      let author := rest.take j
      let rest2 := rest.drop (j + 17)
      let ds := rest2.takeWhile Char.isDigit
      let rest3 := rest2.dropWhile Char.isDigit
      if ds = [] then none
      else if leadsWith " · ".data rest3 then
        some (title, author, ds, rest3.drop 3)
      else none))

/-- The notion notification strip `match(/^\((\d+)\)\s*(.*)$/)`
(linkme.ts:902): leading `(n)` plus whitespace; the trailing group cannot
contain a line terminator. -/
def stripNotionNotif (t : List Char) : Option (List Char) :=
  match t with
  | '(' :: rest =>
    let ds := rest.takeWhile Char.isDigit
    let r1 := rest.dropWhile Char.isDigit
    if ds = [] then none
    else
      match r1 with
      | ')' :: r2 =>
        let r3 := r2.dropWhile isWs
        if r3.any isLineTerm then none else some r3
      | _ => none
  | _ => none

/-- The asana title regex `/^(.*) - Asana$/` (linkme.ts:924). -/
def jsMatchAsana (t : List Char) : Option (List Char) :=
  if trailsWith " - Asana".data t && !((t.take (t.length - 8)).any isLineTerm) then
    some (t.take (t.length - 8))
  else none

/-- The asana team-prefix regex `/^● .+ - (.*)$/` (linkme.ts:929): greedy
middle, so the kept group follows the last `" - "` preceded by at least
one character after the `"● "` marker. -/
def asanaTeamStrip (c : List Char) : Option (List Char) :=
  if c.any isLineTerm then none
  else if leadsWith "● ".data c then
    let rest := c.drop 2
    match ((occIdxs " - ".data rest).filter (fun i => 1 ≤ i)).getLast? with
    | some i => some (rest.drop (i + 3))
    | none => none
  else none

/-- Replace the first occurrence of `pat` (JS `String.prototype.replace`
with a string pattern, linkme.ts:1069). -/
def replaceFirstSub (pat repl l : List Char) : List Char :=
  match (occIdxs pat l).head? with
  | some i => l.take i ++ repl ++ l.drop (i + pat.length)
  | none => l

/-- Modelled platform behavior for
`url.searchParams.set("focus", "true"); url.toString()` (linkme.ts:918-920):
replace an existing `focus` parameter in place, else append it; the
serialization keeps the other parameters verbatim. -/
def asanaFocusLink (p : Pg) : String :=
  let params := if p.search = "" then [] else (p.search.drop 1).splitOn "&"
  let isFocus := fun (kv : String) => kv == "focus" || jsStartsWith kv "focus="
  let params' :=
    if params.any isFocus then
      params.map (fun kv => if isFocus kv then "focus=true" else kv)
    else params ++ ["focus=true"]
  p.origin ++ p.pathname ++ "?" ++ String.intercalate "&" params' ++ p.hash

/-- The channel-name cleanup `channelText.replace(/^\s*Message\s+/, "").trim()`
(linkme.ts:1275). -/
def stripMessageLead (t : String) : String :=
  let l := t.data.dropWhile isWs
  if leadsWith "Message".data l && ((l.drop 7).takeWhile isWs) ≠ [] then
    String.mk (trimWs ((l.drop 7).dropWhile isWs))
  else String.mk (trimWs t.data)

/-- A Slack channel id character class `[A-Z0-9]`. -/
def isChanChar (c : Char) : Bool := ('A' ≤ c && c ≤ 'Z') || c.isDigit

/-- The channel-id regex `/\/archives\/([C][A-Z0-9]+)\//` (linkme.ts:1260):
first position where `/archives/C` is followed by at least one class
character and a slash. -/
def findArchChannel (l : List Char) : Option (List Char) :=
  (occIdxs "/archives/".data l).findSome? (fun i =>
    match l.drop (i + 10) with
    | 'C' :: r2 =>
      let run := r2.takeWhile isChanChar
      match run, r2.dropWhile isChanChar with
      | _ :: _, '/' :: _ => some ('C' :: run)
      | _, _ => none
    | _ => none)

/-- dropboxPaper (linkme.ts:572-580). -/
def dropboxPaper : NamedRule where
  name := "dropboxPaper"
  isMatch := fun p => .ok (p.hostname == "paper.dropbox.com")
  extract := fun p =>
    match p.paperHeader with
    | none => .error ()
    | some t => .ok { link := pgHref p, title := some (t ++ " (Paper)") }

/-- amazon (linkme.ts:582-593). -/
def amazon : NamedRule where
  name := "amazon"
  isMatch := fun p =>
    .ok (jsIncludes p.hostname "amazon.com" && !(jsIncludes p.hostname "aws"))
  extract := fun p =>
    match p.amazonTitle, p.amazonAsin with
    | some t, some asin =>
      .ok { link := "https://www.amazon.com/dp/" ++ asin, title := some t }
    | _, _ => .error ()

/-- awsDocs (linkme.ts:595-611). -/
def awsDocs : NamedRule where
  name := "awsDocs"
  isMatch := fun p => .ok (p.hostname == "aws.amazon.com")
  extract := fun p =>
    match jsMatchGreedyDash p.docTitle.data with
    | some (content, service) =>
      .ok { link := pgHref p,
            title := some (String.mk service ++ ": " ++ String.mk content) }
    | none => .ok { link := pgHref p, title := some p.docTitle }

/-- docsAndDesignTools (linkme.ts:613-644). -/
def docsAndDesignTools : NamedRule where
  name := "docsAndDesignTools"
  isMatch := fun p =>
    .ok ((jsIncludes p.hostname "figma.com" &&
          !(jsIncludes p.hostname "temporal-eks.figma.com") &&
          !(jsIncludes p.hostname "temporal-eks.staging.figma.com")) ||
         jsIncludes p.hostname "docs.google.com")
  extract := fun p =>
    let link := p.origin ++ p.pathname
    if jsIncludes p.docTitle " – " || jsIncludes p.docTitle " - " then
      let i := max (jsLastIndexOf p.docTitle.data " – ".data)
                   (jsLastIndexOf p.docTitle.data " - ".data)
      if -1 < i then
        .ok { link := link,
              title := some (String.mk (p.docTitle.data.take i.toNat) ++ " (" ++
                String.mk (p.docTitle.data.drop (i.toNat + 3)) ++ ")") }
      else .ok { link := link, title := some p.docTitle }
    else .ok { link := link, title := some p.docTitle }

/-- graphiteFigma (linkme.ts:647-683). -/
def graphiteFigma : NamedRule where
  name := "graphiteFigma"
  isMatch := fun p =>
    .ok (jsStartsWith (pgHref p) "https://app.graphite.dev/github/pr/figma/figma")
  extract := fun p =>
    let prNumber := (p.pathname.splitOn "/").getD 5 "undefined"
    let title := String.mk (stripGraphiteTail (stripLeadHashNum p.docTitle.data))
    let author := p.graphiteAlt.getD ""
    let link := "https://github.com/figma/figma/pull/" ++ prNumber
    .ok { link := link,
          title := some (if author ≠ "" then "[PR] " ++ title ++ " (" ++ author ++ ")"
            else "[PR] " ++ title) }

/-- FigmaGithub (linkme.ts:685-721); `parsePRString` throws when the
title does not match the PR shape. -/
def figmaGithub : NamedRule where
  name := "FigmaGithub"
  isMatch := fun p =>
    .ok (jsStartsWith (pgHref p) "https://github.com/figma/figma/pull/")
  extract := fun p =>
    match jsParsePR p.docTitle.data with
    | some (title, author, _, _) =>
      .ok { link := pgHref p,
            title := some ("[PR] " ++ String.mk title ++ " (" ++ String.mk author ++ ")") }
    | none => .error ()

/-- githubCommit (linkme.ts:723-741). -/
def githubCommit : NamedRule where
  name := "githubCommit"
  isMatch := fun p => .ok (jsIncludes (pgHref p) "/commit/")
  extract := fun p =>
    let link := p.origin ++ p.pathname
    match jsMatchDotSep p.docTitle.data with
    | some commitMessage => .ok { link := link, title := some (String.mk commitMessage) }
    | none => .ok { link := link, title := some p.docTitle }

/-- datadogGeneral (linkme.ts:743-757). -/
def datadogGeneral : NamedRule where
  name := "datadogGeneral"
  isMatch := fun p =>
    .ok (jsIncludes p.hostname "datadoghq.com" || jsIncludes p.hostname "ddog-gov.com")
  extract := fun p =>
    .ok { link := pgHref p,
          title := some (p.docTitle ++ getDatadogTimeRange p.ddRange) }

/-- datadogMonitor (linkme.ts:759-870). -/
def datadogMonitor : NamedRule where
  name := "datadogMonitor"
  isMatch := fun p =>
    .ok ((jsIncludes p.hostname "datadoghq.com" || jsIncludes p.hostname "ddog-gov.com") &&
         jsIncludes p.pathname "/monitors/")
  extract := fun p =>
    .ok { link := pgHref p,
          title := some (datadogMonitorTitle p.ddH1 p.ddH3s p.ddRange p.docTitle) }

/-- datadogNotebook (linkme.ts:872-893). -/
def datadogNotebook : NamedRule where
  name := "datadogNotebook"
  isMatch := fun p =>
    .ok (jsIncludes p.hostname "datadoghq.com" && jsIncludes p.pathname "/notebook/")
  extract := fun p =>
    let timeRange := getDatadogTimeRange p.ddRange
    match jsMatchPipeDatadog p.docTitle.data with
    | some content =>
      .ok { link := pgHref p,
            title := some (String.mk content ++ timeRange ++ " (Datadog Notebook)") }
    | none => .ok { link := pgHref p, title := some (p.docTitle ++ timeRange) }

/-- datadogLogs (linkme.ts:958-1003); `logsCode` holds the text of the
code element found after the "Log Message" anchor (via the DFS
primitives), `none` when either search fails. -/
def datadogLogs : NamedRule where
  name := "datadogLogs"
  isMatch := fun p =>
    .ok (jsIncludes p.hostname "datadoghq.com" && jsIncludes p.pathname "/logs")
  extract := fun p =>
    let timeRange := getDatadogTimeRange p.ddRange
    match p.logsCode with
    | some logText =>
      .ok { link := pgHref p,
            title := some (String.mk (collapseTrim logText.data) ++ timeRange ++ " (Logs)") }
    | none =>
      match truthy p.queryParam with
      | some q =>
        .ok { link := pgHref p,
              title := some (String.mk (decodePercent q.data) ++ timeRange ++ " (Logs)") }
      | none =>
        .ok { link := pgHref p, title := some (p.docTitle ++ timeRange ++ " (Logs)") }

/-- temporal (linkme.ts:1005-1026). -/
def temporal : NamedRule where
  name := "temporal"
  isMatch := fun p =>
    .ok (jsIncludes p.hostname "temporal-eks.figma.com" ||
         jsIncludes p.hostname "temporal-eks.staging.figma.com")
  extract := fun p =>
    match truthy p.queryParam with
    | some q =>
      .ok { link := pgHref p,
            title := some (String.mk (decodePercent q.data) ++ " (Temporal)") }
    | none => .ok { link := pgHref p, title := some (p.docTitle ++ " (Temporal)") }

/-- notion (linkme.ts:895-910). -/
def notion : NamedRule where
  name := "notion"
  isMatch := fun p => .ok (jsIncludes p.hostname "notion.so")
  extract := fun p =>
    let title := match stripNotionNotif p.docTitle.data with
      | some r => String.mk r
      | none => p.docTitle
    .ok { link := pgHref p, title := some (title ++ " (Notion)") }

/-- asana (linkme.ts:912-940). -/
def asana : NamedRule where
  name := "asana"
  isMatch := fun p => .ok (p.hostname == "app.asana.com")
  extract := fun p =>
    let link := asanaFocusLink p
    match jsMatchAsana p.docTitle.data with
    | some content =>
      let content' := match asanaTeamStrip content with
        | some x => x
        | none => content
      .ok { link := link, title := some (String.mk content' ++ " (Asana)") }
    | none => .ok { link := link, title := some p.docTitle }

/-- greenhouse (linkme.ts:942-956). -/
def greenhouse : NamedRule where
  name := "greenhouse"
  isMatch := fun p => .ok (jsIncludes (pgHref p) "/scorecards/")
  extract := fun p =>
    match p.scorecardName with
    | none => .error ()
    | some nm =>
      let link := if jsEndsWith (pgHref p) "/edit" then
          String.mk ((pgHref p).data.take ((pgHref p).data.length - 5))
        else pgHref p
      .ok { link := link,
            title := some (cleanupContent nm ++ " (Greenhouse Scorecard)") }

/-- launchDarkly (linkme.ts:1028-1092). -/
def launchDarkly : NamedRule where
  name := "launchDarkly"
  isMatch := fun p => .ok (p.hostname == "app.launchdarkly.com")
  extract := fun p =>
    if jsIncludes p.pathname "/projects/default/flags/" then
      let flagsIdx := ((occIdxs "/projects/default/flags/".data p.pathname.data).head?).getD 0
      let afterFlags := p.pathname.data.drop (flagsIdx + "/projects/default/flags/".data.length)
      let flagName := afterFlags.takeWhile (fun c => !(c == '/'))
      let newPath := replaceFirstSub "/targeting".data "/monitoring".data p.pathname.data
      let link := p.protocol ++ "//" ++ p.host ++ String.mk newPath ++ "?" ++
        "env=production&env=staging&env=gov&env=development&env=devenv01&selected-env=production&activity=true"
      .ok { link := link, title := some (String.mk flagName ++ " (LaunchDarkly)") }
    else
      .ok { link := pgHref p, title := some (p.docTitle ++ " (LaunchDarkly)") }

/-- figmaDeploys (linkme.ts:1094-1121). -/
def figmaDeploys : NamedRule where
  name := "figmaDeploys"
  isMatch := fun p => .ok (p.hostname == "deploysv2.figma.com")
  extract := fun p =>
    let chainId := (p.pathname.splitOn "/").getLastD ""
    match p.deployH4 with
    | some h4Text =>
      let title := if h4Text ≠ "" && !(jsIncludes h4Text ("#" ++ chainId)) then
          h4Text ++ " #" ++ chainId
        else h4Text
      .ok { link := pgHref p, title := some (title ++ " (Figma Deploys)") }
    | none =>
      .ok { link := pgHref p,
            title := some (p.docTitle ++ " #" ++ chainId ++ " (Figma Deploys)") }

/-- goodreads (linkme.ts:1123-1153). -/
def goodreads : NamedRule where
  name := "goodreads"
  isMatch := fun p => .ok (p.hostname == "www.goodreads.com")
  extract := fun p =>
    let base := getTitle p
    let title := match p.contributor with
      | some raw => if jsTrim raw ≠ "" then base ++ " by " ++ jsTrim raw else base
      | none => base
    .ok { link := getUrl p, title := some title }

/-- slack (linkme.ts:1155-1353); every DOM outcome is a page-state field,
and any throw inside the try block is absorbed by the rule's own catch
into the `"(Slack)"` fallback. -/
def slack : NamedRule where
  name := "slack"
  isMatch := fun p => .ok (jsIncludes p.hostname "slack.com")
  extract := fun p =>
    if (!p.slackSaved && !p.slackAlso) || !p.slackMsgFound then
      .ok { link := pgHref p, title := some (p.docTitle ++ " (Slack)") }
    else
      let sender := p.slackSenderAttr.getD ""
      let href := if p.slackTsFound then
          match truthy p.slackTsHrefAttr with
          | some h => h
          | none => pgHref p
        else pgHref p
      let channelName := if p.slackTsFound then
          match findArchChannel href.data with
          | some _ =>
            match p.slackChannelText with
            | some ctext =>
              if jsTrim ctext ≠ "" then stripMessageLead (jsTrim ctext) else ""
            | none => ""
          | none => ""
        else ""
      let dateString := if p.slackTsFound then
          match truthy p.slackTsDataTs with
          | some _ => p.slackDateFmt ++ " ET"
          | none => ""
        else ""
      let content := match p.slackMsgText with
        | some (h, t) => (h, jsTrim t)
        | none => (p.slackContainerHtml, p.slackContainerText)
      .ok { link := href, title := some content.2, html := some content.1,
            text := some content.2, sender := some sender,
            dateString := some dateString, channelName := some channelName }

/-- The registered rule order (linkme.ts:1370-1390). -/
def linkmeRules : List NamedRule :=
  [graphiteFigma, figmaGithub, figmaDeploys, docsAndDesignTools, dropboxPaper,
   amazon, awsDocs, githubCommit, datadogMonitor, datadogNotebook, datadogLogs,
   datadogGeneral, temporal, notion, asana, greenhouse, launchDarkly,
   goodreads, slack]

/-- The dispatch loop of `getDocInfo` (linkme.ts:1394-1419): evaluate each
rule's predicate, run the first matching extractor, treat any throw from
either as a skip, and fall back to the generic resolver after the list is
exhausted. -/
def dispatchGo : List NamedRule → Pg → DocInfo
  | [], p => { link := getUrl p, title := some (getTitle p) }
  | r :: rs, p =>
    match r.isMatch p with
    | .error _ => dispatchGo rs p
    | .ok false => dispatchGo rs p
    | .ok true =>
      match r.extract p with
      | .error _ => dispatchGo rs p
      | .ok d => d

/-- The public entry point `getDocInfo` (linkme.ts:1365-1420). -/
def getDocInfo (p : Pg) : DocInfo := dispatchGo linkmeRules p

/-- The first rule in the list whose predicate returns true and whose
extractor completes, with its result. -/
def firstRuleSuccess : List NamedRule → Pg → Option DocInfo
  | [], _ => none
  | r :: rs, p =>
    match r.isMatch p with
    | .ok true =>
      match r.extract p with
      | .ok d => some d
      | .error _ => firstRuleSuccess rs p
    | _ => firstRuleSuccess rs p

/-- The rules registered before githubCommit (linkme.ts:1371-1377). -/
def rulesBeforeCommit : List NamedRule :=
  [graphiteFigma, figmaGithub, figmaDeploys, docsAndDesignTools, dropboxPaper,
   amazon, awsDocs]

/-- All five slack-only optional fields are absent. -/
def fiveAbsent (d : DocInfo) : Prop :=
  d.html = none ∧ d.text = none ∧ d.sender = none ∧
  d.dateString = none ∧ d.channelName = none

/-- All five slack-only optional fields are present. -/
def fivePresent (d : DocInfo) : Prop :=
  d.html.isSome = true ∧ d.text.isSome = true ∧ d.sender.isSome = true ∧
  d.dateString.isSome = true ∧ d.channelName.isSome = true

/-- The C1 counterexample page: dropboxPaper's hostname with a pathname
containing "/commit/", and no paper header element, so dropboxPaper
matches and its extractor throws while githubCommit later succeeds. -/
def c1Page : Pg :=
  { hostname := "paper.dropbox.com", origin := "https://paper.dropbox.com",
    pathname := "/commit/x", docTitle := "T" }

/-- A C10 witness page: a non-github host whose URL contains "/commit/". -/
def c10Page : Pg :=
  { hostname := "gitlab.example.org", origin := "https://gitlab.example.org",
    pathname := "/foo/commit/abc", docTitle := "Fix bug · repo@abc" }

instance exceptDecEq {ε α : Type} [DecidableEq ε] [DecidableEq α] :
    DecidableEq (Except ε α) := fun a b =>
  match a, b with
  | .ok x, .ok y =>
    if h : x = y then isTrue (by rw [h])
    else isFalse (fun hc => by injection hc; contradiction)
  | .error x, .error y =>
    if h : x = y then isTrue (by rw [h])
    else isFalse (fun hc => by injection hc; contradiction)
  | .ok _, .error _ => isFalse (fun hc => Except.noConfusion hc)
  | .error _, .ok _ => isFalse (fun hc => Except.noConfusion hc)

/-- A DOM element: identity (modelling JS object identity via a numeric
id), tag name, and child elements in document order. -/
inductive Elem where
  | node (eid : Nat) (tag : String) (kids : List Elem)

def Elem.eid : Elem → Nat
  | .node i _ _ => i

def Elem.tag : Elem → String
  | .node _ t _ => t

def Elem.kids : Elem → List Elem
  | .node _ _ ks => ks

mutual
/-- Depth-first pre-order of a tree (the visit order of `dfsTraversal`,
linkme.ts:79-106). -/
def preE : Elem → List Elem
  | .node i t ks => .node i t ks :: preL ks
def preL : List Elem → List Elem
  | [] => []
  | k :: ks => preE k ++ preL ks
end

mutual
/-- The traversal `dfsTraversal` (linkme.ts:79-106) for a non-throwing condition: the
`foundStart` flag is threaded explicitly.  Before the start element is
seen, the current element is only compared against it and its children
are traversed with the updated flag; afterwards the condition is tested
on the current element first and then on the children. -/
def goE (s : Nat) (cond : Elem → Bool) : Elem → Bool → Option Elem × Bool
  | .node i t ks, found =>
    if found then
      if cond (.node i t ks) then (some (.node i t ks), found)
      else goL s cond ks found
    else goL s cond ks (i == s)
def goL (s : Nat) (cond : Elem → Bool) : List Elem → Bool → Option Elem × Bool
  | [], f => (none, f)
  | k :: ks, f =>
    match goE s cond k f with
    | (some r, f') => (some r, f')
    | (none, f') => goL s cond ks f'
end

/-- The search `findNextElementDFS` (linkme.ts:73-115): traverse from `document.body`
with the flag reset, and when that pass finds nothing, reset the flag and
traverse from `document.documentElement`. -/
def findNextElementDFS (body docEl : Elem) (s : Nat) (cond : Elem → Bool) :
    Option Elem :=
  match goE s cond body false with
  | (some r, _) => some r
  | (none, _) => (goE s cond docEl false).1

mutual
/-- The traversal `dfsTraversal` for a condition that may throw (the condition passed by rules
is arbitrary JS): exceptions propagate out of the traversal. -/
def goEE (s : Nat) (cond : Elem → Except Unit Bool) :
    Elem → Bool → Except Unit (Option Elem × Bool)
  | .node i t ks, found =>
    if found then
      match cond (.node i t ks) with
      | .error e => .error e
      | .ok true => .ok (some (.node i t ks), found)
      | .ok false => goLE s cond ks found
    else goLE s cond ks (i == s)
def goLE (s : Nat) (cond : Elem → Except Unit Bool) :
    List Elem → Bool → Except Unit (Option Elem × Bool)
  | [], f => .ok (none, f)
  | k :: ks, f =>
    match goEE s cond k f with
    | .error e => .error e
    | .ok (some r, f') => .ok (some r, f')
    | .ok (none, f') => goLE s cond ks f'
end

/-- Variant of `findNextElementDFS` with a throwing condition. -/
def findNextElementDFSE (body docEl : Elem) (s : Nat)
    (cond : Elem → Except Unit Bool) : Except Unit (Option Elem) :=
  match goEE s cond body false with
  | .error e => .error e
  | .ok (some r, _) => .ok (some r)
  | .ok (none, _) =>
    match goEE s cond docEl false with
    | .error e => .error e
    | .ok (res, _) => .ok res

mutual
def maxIdE : Elem → Nat
  | .node i _ ks => max i (maxIdL ks)
def maxIdL : List Elem → Nat
  | [] => 0
  | k :: ks => max (maxIdE k) (maxIdL ks)
end

/-- An id not used anywhere in the tree: models the fresh object identity
of `document.createElement("div")` (linkme.ts:138). -/
def freshId (root : Elem) : Nat := maxIdE root + 1

/-- Insert `dummy` as the first child (`insertBefore(dummy, firstChild)`
or `appendChild` on an empty body, linkme.ts:142-146). -/
def insertFirstKid (dummy : Elem) : Elem → Elem
  | .node i t ks => .node i t (dummy :: ks)

mutual
/-- Rewrite the first node tagged `body` in pre-order (the model of
mutating `document.body`); the flag reports whether one was found. -/
def updBodyE (f : Elem → Elem) : Elem → Elem × Bool
  | .node i t ks =>
    if t == "body" then (f (.node i t ks), true)
    else
      match updBodyL f ks with
      | (ks', done) => (.node i t ks', done)
def updBodyL (f : Elem → Elem) : List Elem → List Elem × Bool
  | [] => ([], false)
  | k :: ks =>
    match updBodyE f k with
    | (k', true) => (k' :: ks, true)
    | (_, false) =>
      match updBodyL f ks with
      | (ks', d2) => (k :: ks', d2)
end

/-- The lookup `document.body`: the first node tagged `body` in pre-order. -/
def findBody (root : Elem) : Option Elem :=
  (preE root).find? (fun e => e.tag == "body")

mutual
/-- Remove every node with the given id from the tree (the dummy is the
only node carrying its fresh id, so this is
`dummy.parentNode.removeChild(dummy)`, linkme.ts:154-156). -/
def remIdE (did : Nat) : Elem → Elem
  | .node i t ks => .node i t (remIdL did ks)
def remIdL (did : Nat) : List Elem → List Elem
  | [] => []
  | k :: ks =>
    if k.eid == did then remIdL did ks
    else remIdE did k :: remIdL did ks
end

/-- The search `findFirstInWholeDFS` (linkme.ts:134-158) acting on the whole
document tree: create a fresh dummy element, insert it as the body's
first child, run `findNextElementDFS` from it (the try block), and remove
the dummy again whatever the outcome (the finally block).  When the
document has no body node, the insertion itself throws before the try
block and the document is untouched. -/
def findFirstInWholeDFS (root : Elem) (cond : Elem → Except Unit Bool) :
    Except Unit (Option Elem) × Elem :=
  match findBody root with
  | none => (.error (), root)
  | some _ =>
    let dummy := Elem.node (freshId root) "div" []
    let root' := (updBodyE (insertFirstKid dummy) root).1
    let res := match findBody root' with
      | some body' => findNextElementDFSE body' root' dummy.eid cond
      | none => .error ()
    (res, remIdE dummy.eid root')

/-- The elements strictly after the first occurrence of the start id in a
pre-order listing: exactly the elements on which `dfsTraversal` evaluates
the condition in that pass. -/
def restAfter (s : Nat) (l : List Elem) : List Elem :=
  (l.dropWhile (fun e => !(e.eid == s))).drop 1

/-- A concrete body for the C6 witness. -/
def c6Body : Elem := .node 0 "body" [.node 1 "a" [], .node 2 "b" []]

/-- A concrete documentElement for the C6 witness. -/
def c6DocEl : Elem := .node 5 "html" []

theorem trimEndWs_cons (c : Char) (cs : List Char) :
    trimEndWs (c :: cs) = match trimEndWs cs with
      | [] => if isWs c then [] else [c]
      | x :: xs => c :: x :: xs := rfl

theorem collapseWs_ne_nil {l : List Char} (h : l ≠ []) : collapseWs l ≠ [] := by
  induction l using collapseWs.induct with
  | case1 => exact absurd rfl h
  | case2 c hc => simp [collapseWs, hc]
  | case3 c hc => simp [collapseWs, hc]
  | case4 c d cs h1 h2 ih => simpa [collapseWs, h1, h2] using ih (by simp)
  | case5 c d cs h1 h2 ih => simp [collapseWs, h1, h2]
  | case6 c d cs h1 ih => simp [collapseWs, h1]

theorem collapseWs_cons_not_ws {d : Char} {cs : List Char} (h : isWs d = false) :
    ∃ t, collapseWs (d :: cs) = d :: t := by
  cases cs with
  | nil => exact ⟨[], by simp [collapseWs, h]⟩
  | cons e es => exact ⟨collapseWs (e :: es), by simp [collapseWs, h]⟩

theorem collapsedOk_collapseWs (l : List Char) : collapsedOk (collapseWs l) = true := by
  induction l using collapseWs.induct with
  | case1 => simp [collapseWs, collapsedOk]
  | case2 c hc => simp [collapseWs, hc, collapsedOk]
  | case3 c hc => simp [collapseWs, hc, collapsedOk]
  | case4 c d cs h1 h2 ih => simpa [collapseWs, h1, h2] using ih
  | case5 c d cs h1 h2 ih =>
    have h2' : isWs d = false := by simpa using h2
    obtain ⟨t, ht⟩ := collapseWs_cons_not_ws h2'
    rw [ht] at ih
    simp [collapseWs, h1, h2, ht, collapsedOk, h2']
    exact ih
  | case6 c d cs h1 ih =>
    have h1' : isWs c = false := by simpa using h1
    cases hx : collapseWs (d :: cs) with
    | nil => simp [collapseWs, h1', hx, collapsedOk, h1']
    | cons x xs =>
      rw [hx] at ih
      simp [collapseWs, h1', hx, collapsedOk]
      exact ih

theorem collapseWs_of_collapsedOk {l : List Char} (h : collapsedOk l = true) :
    collapseWs l = l := by
  induction l using collapseWs.induct with
  | case1 => rfl
  | case2 c hc =>
    have : c = ' ' := by simpa [collapsedOk, hc] using h
    simp [collapseWs, hc, this]
  | case3 c hc => simp [collapseWs, hc]
  | case4 c d cs h1 h2 ih =>
    exfalso
    simp [collapsedOk, h1, h2] at h
  | case5 c d cs h1 h2 ih =>
    have h2' : isWs d = false := by simpa using h2
    simp [collapsedOk, h1, h2'] at h
    obtain ⟨hc, hok⟩ := h
    simp [collapseWs, h1, h2', ih hok, hc]
  | case6 c d cs h1 ih =>
    have h1' : isWs c = false := by simpa using h1
    simp [collapsedOk, h1'] at h
    simp [collapseWs, h1', ih h]

theorem collapsedOk_tail {c : Char} {cs : List Char}
    (h : collapsedOk (c :: cs) = true) : collapsedOk cs = true := by
  cases cs with
  | nil => rfl
  | cons d ds => simp [collapsedOk] at h ⊢; exact h.2

theorem collapsedOk_dropWhile {l : List Char} (h : collapsedOk l = true) :
    collapsedOk (l.dropWhile isWs) = true := by
  induction l with
  | nil => simpa using h
  | cons c cs ih =>
    by_cases hw : isWs c
    · simpa [List.dropWhile_cons, hw] using ih (collapsedOk_tail h)
    · simpa [List.dropWhile_cons, hw] using h

theorem trimEndWs_head (a : Char) (as : List Char) :
    trimEndWs (a :: as) = [] ∨ ∃ t, trimEndWs (a :: as) = a :: t := by
  rw [trimEndWs_cons]
  cases h : trimEndWs as with
  | nil =>
    by_cases hw : isWs a
    · left; simp [hw]
    · right; exact ⟨[], by simp [hw]⟩
  | cons x xs => right; exact ⟨x :: xs, rfl⟩

theorem collapsedOk_trimEndWs {l : List Char} (h : collapsedOk l = true) :
    collapsedOk (trimEndWs l) = true := by
  induction l with
  | nil => rfl
  | cons c cs ih =>
    have hcs := collapsedOk_tail h
    rw [trimEndWs_cons]
    cases hx : trimEndWs cs with
    | nil =>
      by_cases hw : isWs c
      · simp [hw, collapsedOk]
      · simp [hw, collapsedOk]
    | cons x xs =>
      have hok : collapsedOk (x :: xs) = true := by rw [← hx]; exact ih hcs
      cases cs with
      | nil => simp [trimEndWs] at hx
      | cons d ds =>
        rcases trimEndWs_head d ds with h1 | ⟨t, ht⟩
        · rw [h1] at hx; exact absurd hx (by simp)
        · rw [ht] at hx
          injection hx with hx1 hx2
          subst hx1
          simp [collapsedOk] at h ⊢
          refine ⟨?_, hok⟩
          exact h.1

theorem trimEndWs_idem (l : List Char) : trimEndWs (trimEndWs l) = trimEndWs l := by
  induction l with
  | nil => rfl
  | cons c cs ih =>
    cases hx : trimEndWs cs with
    | nil =>
      by_cases hw : isWs c
      · rw [trimEndWs_cons, hx]; simp [hw]; rfl
      · rw [trimEndWs_cons, hx]; simp [hw, trimEndWs]
    | cons x xs =>
      have h1 : trimEndWs (c :: cs) = c :: x :: xs := by rw [trimEndWs_cons, hx]
      rw [hx] at ih
      rw [h1, trimEndWs_cons, ih]

theorem dropWhile_isWs_trimEndWs_of_head {c : Char} {cs : List Char}
    (h : isWs c = false) :
    (trimEndWs (c :: cs)).dropWhile isWs = trimEndWs (c :: cs) := by
  rcases trimEndWs_head c cs with h1 | ⟨t, ht⟩
  · simp [h1]
  · simp [ht, List.dropWhile_cons, h]

theorem trimWs_idem (l : List Char) : trimWs (trimWs l) = trimWs l := by
  unfold trimWs
  cases hx : l.dropWhile isWs with
  | nil => simp [trimEndWs]
  | cons c cs =>
    have hc : isWs c = false := by
      have := List.head?_dropWhile_not isWs l
      rw [hx] at this
      simpa using this
    rw [dropWhile_isWs_trimEndWs_of_head hc, trimEndWs_idem]

theorem collapsedOk_trimWs {l : List Char} (h : collapsedOk l = true) :
    collapsedOk (trimWs l) = true :=
  collapsedOk_trimEndWs (collapsedOk_dropWhile h)


theorem collapseTrim_idem (l : List Char) : collapseTrim (collapseTrim l) = collapseTrim l := by
  unfold collapseTrim
  rw [collapseWs_of_collapsedOk (collapsedOk_trimWs (collapsedOk_collapseWs l))]
  exact trimWs_idem _

theorem find?_split {α : Type} (p : α → Bool) {l : List α} {a : α}
    (h : l.find? p = some a) :
    p a = true ∧ ∃ l1 l2, l = l1 ++ a :: l2 ∧ ∀ x ∈ l1, p x = false := by
  induction l with
  | nil => simp at h
  | cons b bs ih =>
    cases hb : p b
    · rw [List.find?_cons_of_neg _ (by simp [hb])] at h
      obtain ⟨hpa, l1, l2, hsplit, hprev⟩ := ih h
      refine ⟨hpa, b :: l1, l2, by simp [hsplit], ?_⟩
      intro x hx
      rcases List.mem_cons.1 hx with h1 | h1
      · subst h1; exact hb
      · exact hprev x h1
    · rw [List.find?_cons_of_pos _ hb] at h
      injection h with h1
      subst h1
      exact ⟨hb, [], bs, rfl, by simp⟩

/-- Claim C4: in the datadogMonitor rule an h3 qualifies as the alert
source exactly when its text contains "[Triggered" or "[Warn" and, when
the h1 text is non-empty, also contains it verbatim; the first qualifying
h3 in document order is selected, with no earlier h3 qualifying; and on
the page with h1 "Disk Space Alert", the two triggered h3s and date range
"Jul 25, 2pm – 3pm", the produced title is the h1 text, directly followed
by the relocated {environment:production} tag, followed by the
parenthesized time range. -/
theorem datadogMonitor_h3_selection :
    (∀ h1Text full : List Char,
      ddQualifies h1Text full = true ↔
        ((containsSub "[Triggered".data full || containsSub "[Warn".data full) = true ∧
         (h1Text ≠ [] → containsSub h1Text full = true))) ∧
    (∀ (h1Text : List Char) (h3s : List String) (t : String),
      h3s.find? (fun u => ddQualifies h1Text u.data) = some t →
      ddQualifies h1Text t.data = true ∧
      ∃ pre post, h3s = pre ++ t :: post ∧
        ∀ u ∈ pre, ddQualifies h1Text u.data = false) ∧
    datadogMonitorTitle (some "Disk Space Alert")
      ["[Triggered] \x7benvironment:production\x7d Disk Space Alert",
       "[Triggered] \x7benvironment:staging\x7d Disk Space Alert"]
      (some "Jul 25, 2pm – 3pm") "Monitor Status | Datadog"
      = "Disk Space Alert\x7benvironment:production\x7d (Jul 25, 2pm – 3pm)" := by
  refine ⟨?_, ?_, by decide⟩
  · intro h1Text full
    unfold ddQualifies
    cases hh : h1Text.isEmpty
    · have hne : h1Text ≠ [] := by simpa using hh
      simp [hne]
      tauto
    · have hnil : h1Text = [] := by simpa using hh
      simp [hnil]
  · intro h1Text h3s t h
    obtain ⟨hq, l1, l2, hsplit, hprev⟩ := find?_split _ h
    exact ⟨hq, l1, l2, hsplit, hprev⟩

theorem datadogMonitor_h3_selection_witness :
    ddQualifies "Disk Space Alert".data
      "[Triggered] \x7benvironment:production\x7d Disk Space Alert".data = true :=
  (datadogMonitor_h3_selection.2.1 "Disk Space Alert".data
    ["[Triggered] \x7benvironment:production\x7d Disk Space Alert",
     "[Triggered] \x7benvironment:staging\x7d Disk Space Alert"]
    "[Triggered] \x7benvironment:production\x7d Disk Space Alert" (by decide)).1

/-- Claim C3 as stated is violated: on the h3 text
"[Triggered] x} {a:b} w {q:{a:b}", whose post-strip text has the matched
tags "{a:b}" and "{q:{a:b}", the sequential global replacement destroys
the in-place occurrence of the second tag while removing the first, so
the produced title keeps a "{q:" residue that the claim's cleaned text
(all matched tags removed in place) does not predict. -/
theorem datadogMonitor_curly_relocation_cex :
    stripMarker (ddAlertType ddCexH3.data) ddCexH3.data = cexC3 ∧
    matchCurlyTags cexC3 ≠ [] ∧
    datadogMonitorTitle none [ddCexH3] none "dt"
      = "x\x7d w \x7bq: \x7ba:b\x7d\x7bq:\x7ba:b\x7d" ∧
    String.mk (specPredictedTitle cexC3) = "x\x7d w \x7ba:b\x7d\x7bq:\x7ba:b\x7d" ∧
    datadogRetitle cexC3 ≠ specPredictedTitle cexC3 := by
  refine ⟨by decide, by decide, by decide, by decide, by decide⟩

/-- Claim C3 amended: when the post-strip text has at least one curly
tag, the produced title is the cleaned text followed by the tags in their
original order, concatenated with no separator and contents unchanged,
with one space inserted exactly when the trimmed pre-strip text already
ended with the last tag — where the cleaned text arises from sequentially
replacing, for each matched tag in order, every occurrence of that tag
(with surrounding whitespace) in the current text by a space, then
collapsing whitespace and trimming (not from removing the matched spans
in place, which differs when one matched tag overlaps a later one's
occurrence). -/
theorem datadogMonitor_curly_relocation_amended (t : List Char)
    (h : matchCurlyTags t ≠ []) :
    datadogRetitle t =
      collapseTrim (removeTagsSeq (matchCurlyTags t) t) ++
      (if trailsWith ((matchCurlyTags t).getLastD []) (trimWs t) then [' '] else []) ++
      (matchCurlyTags t).flatten := by
  have hne : (matchCurlyTags t).isEmpty = false := by
    cases hmt : matchCurlyTags t
    · exact absurd hmt h
    · rfl
  simp [datadogRetitle, hne]

theorem datadogMonitor_curly_relocation_amended_witness :
    datadogRetitle "\x7benvironment:production\x7d Disk Space Alert".data =
      collapseTrim (removeTagsSeq
        (matchCurlyTags "\x7benvironment:production\x7d Disk Space Alert".data)
        "\x7benvironment:production\x7d Disk Space Alert".data) ++
      (if trailsWith
          ((matchCurlyTags "\x7benvironment:production\x7d Disk Space Alert".data).getLastD [])
          (trimWs "\x7benvironment:production\x7d Disk Space Alert".data)
        then [' '] else []) ++
      (matchCurlyTags "\x7benvironment:production\x7d Disk Space Alert".data).flatten :=
  datadogMonitor_curly_relocation_amended _ (by decide)

/-- Claim C5 as stated is violated: `cleanupContent` decodes HTML entities
on every application, so a doubly-escaped entity decodes twice and the
normalizer is not idempotent. -/
theorem cleanupContent_not_idempotent :
    cleanupContent "&amp;amp;" = "&amp;" ∧
    cleanupContent (cleanupContent "&amp;amp;") = "&" ∧
    cleanupContent (cleanupContent "&amp;amp;") ≠ cleanupContent "&amp;amp;" := by
  refine ⟨by decide, by decide, by decide⟩

/-- Claim C5 amended: `cleanupContent` is idempotent on every string whose
single application is left unchanged by entity decoding (in particular on
ampersand-free inputs); in general a second application decodes
doubly-escaped entities once more. -/
theorem cleanupContent_idem_of_decode_fixed (s : String)
    (h : decodeEntStr (cleanupContent s) = cleanupContent s) :
    cleanupContent (cleanupContent s) = cleanupContent s := by
  by_cases h0 : cleanupContent s = ""
  · rw [h0]
    rfl
  · have hd : decodeEnt (cleanupContent s).data = (cleanupContent s).data :=
      congrArg String.data h
    by_cases hs : s = ""
    · exact absurd (by simp [hs, cleanupContent]) h0
    · have hval : cleanupContent s = String.mk (trimWs (collapseWs (decodeEnt s.data))) := by
        rw [cleanupContent, if_neg hs]
      rw [cleanupContent, if_neg h0, hd, hval]
      show String.mk (trimWs (collapseWs (trimWs (collapseWs (decodeEnt s.data))))) = _
      rw [collapseWs_of_collapsedOk (collapsedOk_trimWs (collapsedOk_collapseWs _)),
        trimWs_idem]

theorem cleanupContent_idem_witness :
    decodeEntStr (cleanupContent "a&amp;b  c") = cleanupContent "a&amp;b  c" ∧
    cleanupContent (cleanupContent "a&amp;b  c") = cleanupContent "a&amp;b  c" :=
  ⟨by decide, cleanupContent_idem_of_decode_fixed "a&amp;b  c" (by decide)⟩

/-- Claim C8: the generic title resolver follows the strict fallback
order: with a non-empty og:title the result is derived from it alone
(schema.org title and document.title are not consulted); otherwise a
schema.org title is used, rendered as "title (author)" when a schema.org
author exists; otherwise the normalized document title is used, with the
"Place - Service" suffixes reformatted to "Place (Service)". -/
theorem getTitle_fallback_order :
    (∀ (p : Pg) (og : String), truthy p.ogTitle = some og →
      ∀ st dt, getTitle { p with schemaTitle := st, docTitle := dt } = getTitle p) ∧
    (∀ (p : Pg) (st a : String), truthy p.ogTitle = none →
      truthy p.schemaTitle = some st → truthy p.schemaAuthor = some a →
      getTitle p = cleanupContent st ++ " (" ++ cleanupContent a ++ ")") ∧
    (∀ (p : Pg) (st : String), truthy p.ogTitle = none →
      truthy p.schemaTitle = some st → truthy p.schemaAuthor = none →
      getTitle p = cleanupContent st) ∧
    (∀ p : Pg, truthy p.ogTitle = none → truthy p.schemaTitle = none →
      getTitle p = String.mk (serviceReformat (cleanupContent p.docTitle).data)) ∧
    getTitle { docTitle := "Central Park - Google Maps" } = "Central Park (Google Maps)" := by
  refine ⟨?_, ?_, ?_, ?_, by decide⟩
  · intro p og hog st dt
    have hog2 : truthy (Pg.ogTitle { p with schemaTitle := st, docTitle := dt }) = some og := hog
    simp only [getTitle, hog, hog2]
  · intro p st a hog hst ha
    simp [getTitle, hog, getTitleSchema, hst, ha]
  · intro p st hog hst ha
    simp [getTitle, hog, getTitleSchema, hst, ha]
  · intro p hog hst
    simp [getTitle, hog, getTitleSchema, hst]

theorem getTitle_fallback_order_witness :
    truthy (Pg.ogTitle { ogTitle := some "OG" }) = some "OG" ∧
    getTitle { ogTitle := some "OG", schemaTitle := some "S1", docTitle := "D1" }
      = getTitle { ogTitle := some "OG" } ∧
    getTitle { schemaTitle := some "Sonata", schemaAuthor := some "Clara" }
      = "Sonata (Clara)" := by
  refine ⟨by decide, ?_, ?_⟩
  · exact getTitle_fallback_order.1 { ogTitle := some "OG" } "OG" (by decide)
      (some "S1") "D1"
  · exact getTitle_fallback_order.2.1 { schemaTitle := some "Sonata", schemaAuthor := some "Clara" }
      "Sonata" "Clara" (by decide) (by decide) (by decide)

theorem dispatchGo_eq_firstSuccess (rs : List NamedRule) (p : Pg) :
    dispatchGo rs p =
      (firstRuleSuccess rs p).getD { link := getUrl p, title := some (getTitle p) } := by
  induction rs with
  | nil => rfl
  | cons r rs ih =>
    cases hm : r.isMatch p with
    | error e => simp [dispatchGo, firstRuleSuccess, hm, ih]
    | ok b =>
      cases b
      · simp [dispatchGo, firstRuleSuccess, hm, ih]
      · cases hx : r.extract p with
        | error e => simp [dispatchGo, firstRuleSuccess, hm, hx, ih]
        | ok d => simp [dispatchGo, firstRuleSuccess, hm, hx]

theorem firstRuleSuccess_mem {rs : List NamedRule} {p : Pg} {d : DocInfo}
    (h : firstRuleSuccess rs p = some d) :
    ∃ r ∈ rs, r.isMatch p = .ok true ∧ r.extract p = .ok d := by
  induction rs with
  | nil => simp [firstRuleSuccess] at h
  | cons r rs ih =>
    cases hm : r.isMatch p with
    | error e =>
      simp only [firstRuleSuccess, hm] at h
      obtain ⟨r', hr', hm', hx'⟩ := ih h
      exact ⟨r', List.mem_cons_of_mem _ hr', hm', hx'⟩
    | ok b =>
      cases b
      · simp only [firstRuleSuccess, hm] at h
        obtain ⟨r', hr', hm', hx'⟩ := ih h
        exact ⟨r', List.mem_cons_of_mem _ hr', hm', hx'⟩
      · cases hx : r.extract p with
        | error e =>
          simp only [firstRuleSuccess, hm, hx] at h
          obtain ⟨r', hr', hm', hx'⟩ := ih h
          exact ⟨r', List.mem_cons_of_mem _ hr', hm', hx'⟩
        | ok d' =>
          simp only [firstRuleSuccess, hm, hx] at h
          cases h
          exact ⟨r, List.mem_cons_self _ _, hm, hx⟩

theorem dispatchGo_append_skip {rs1 : List NamedRule} {p : Pg}
    (h : ∀ r ∈ rs1, r.isMatch p ≠ .ok true ∨ r.extract p = .error ())
    (rs2 : List NamedRule) :
    dispatchGo (rs1 ++ rs2) p = dispatchGo rs2 p := by
  induction rs1 with
  | nil => rfl
  | cons r rs ih =>
    have hr := h r (List.mem_cons_self _ _)
    have hrest : ∀ r' ∈ rs, r'.isMatch p ≠ .ok true ∨ r'.extract p = .error () :=
      fun r' hr' => h r' (List.mem_cons_of_mem _ hr')
    rw [List.cons_append]
    cases hm : r.isMatch p with
    | error e => simp only [dispatchGo, hm]; exact ih hrest
    | ok b =>
      cases b
      · simp only [dispatchGo, hm]; exact ih hrest
      · rcases hr with hne | hx
        · exact absurd hm hne
        · simp only [dispatchGo, hm, hx]; exact ih hrest

/-- Claim C2: the dispatcher always returns a DocInfo value — any failure
of a rule's predicate or extractor is absorbed by the loop — and when no
rule yields a result the generic fallback
`{ link: getUrl(), title: getTitle() }` is returned.  The first equation
holds for an arbitrary rule list (so for arbitrarily throwing predicates
and extractors); the second instantiates it to the registered list behind
the public entry point. -/
theorem getDocInfo_total_and_fallback :
    (∀ (rs : List NamedRule) (p : Pg),
      dispatchGo rs p =
        (firstRuleSuccess rs p).getD { link := getUrl p, title := some (getTitle p) }) ∧
    (∀ p : Pg,
      getDocInfo p =
        (firstRuleSuccess linkmeRules p).getD
          { link := getUrl p, title := some (getTitle p) }) :=
  ⟨dispatchGo_eq_firstSuccess, fun p => dispatchGo_eq_firstSuccess linkmeRules p⟩

/-- Claim C1 as stated is violated: on a paper.dropbox.com page whose URL
contains "/commit/" and whose paper header element is missing,
dropboxPaper's predicate returns true and its extractor throws, yet
extraction is not finished — the dispatcher moves on and returns the
later githubCommit rule's extractor output. -/
theorem dispatcher_stops_after_throw_cex :
    dropboxPaper.isMatch c1Page = .ok true ∧
    dropboxPaper.extract c1Page = .error () ∧
    githubCommit.extract c1Page = .ok (getDocInfo c1Page) ∧
    getDocInfo c1Page =
      { link := "https://paper.dropbox.com/commit/x", title := some "T" } := by
  refine ⟨by decide, by decide, by decide, by decide⟩

/-- Claim C1 amended: when a rule's predicate returns true but its
extractor throws, the dispatcher continues with the remaining rules as if
the rule had not matched, so a later rule's extractor output can be
returned for that call. -/
theorem dispatcher_continues_after_throw (r : NamedRule) (rs : List NamedRule)
    (p : Pg) (hm : r.isMatch p = .ok true) (hx : r.extract p = .error ()) :
    dispatchGo (r :: rs) p = dispatchGo rs p := by
  simp only [dispatchGo, hm, hx]

theorem dispatcher_continues_after_throw_witness :
    dispatchGo (dropboxPaper :: [githubCommit]) c1Page = dispatchGo [githubCommit] c1Page :=
  dispatcher_continues_after_throw dropboxPaper [githubCommit] c1Page
    (by decide) (by decide)

/-- Claim C10: githubCommit's predicate is host-agnostic — it accepts any
page whose URL contains "/commit/", whatever the hostname — its extractor
never throws and always strips the query/fragment from the link; and when
no rule before it in the dispatch order claims such a page, it produces
the dispatcher's result. -/
theorem githubCommit_host_agnostic :
    (∀ p : Pg, jsIncludes (pgHref p) "/commit/" = true →
      githubCommit.isMatch p = .ok true) ∧
    (∀ p : Pg, ∀ d : DocInfo, githubCommit.extract p = .ok d →
      d.link = p.origin ++ p.pathname) ∧
    (∀ p : Pg, jsIncludes (pgHref p) "/commit/" = true →
      (∀ r ∈ rulesBeforeCommit, r.isMatch p ≠ .ok true ∨ r.extract p = .error ()) →
      githubCommit.extract p = .ok (getDocInfo p)) := by
  refine ⟨?_, ?_, ?_⟩
  · intro p h
    simp [githubCommit, h]
  · intro p d h
    simp only [githubCommit] at h
    split at h <;> (cases h; rfl)
  · intro p h hskip
    have hlist : linkmeRules =
        rulesBeforeCommit ++ githubCommit ::
          [datadogMonitor, datadogNotebook, datadogLogs, datadogGeneral, temporal,
           notion, asana, greenhouse, launchDarkly, goodreads, slack] := rfl
    have hgo : getDocInfo p = dispatchGo (githubCommit ::
        [datadogMonitor, datadogNotebook, datadogLogs, datadogGeneral, temporal,
         notion, asana, greenhouse, launchDarkly, goodreads, slack]) p := by
      rw [getDocInfo, hlist]
      exact dispatchGo_append_skip hskip _
    have hm : githubCommit.isMatch p = .ok true := by simp [githubCommit, h]
    cases hx : githubCommit.extract p with
    | error e =>
      exfalso
      revert hx
      simp only [githubCommit]
      split <;> simp
    | ok d =>
      rw [hgo]
      simp only [dispatchGo, hm, hx]

theorem githubCommit_host_agnostic_witness :
    jsIncludes (pgHref c10Page) "/commit/" = true ∧
    githubCommit.isMatch c10Page = .ok true ∧
    githubCommit.extract c10Page = .ok (getDocInfo c10Page) := by
  refine ⟨by decide, githubCommit_host_agnostic.1 c10Page (by decide), ?_⟩
  exact githubCommit_host_agnostic.2.2 c10Page (by decide) (by decide)

theorem fiveAbsent_dropboxPaper (p : Pg) (d : DocInfo)
    (h : dropboxPaper.extract p = .ok d) : fiveAbsent d := by
  simp only [dropboxPaper] at h
  split at h <;> simp_all [fiveAbsent]
  cases h
  simp [fiveAbsent]

theorem fiveAbsent_amazon (p : Pg) (d : DocInfo)
    (h : amazon.extract p = .ok d) : fiveAbsent d := by
  simp only [amazon] at h
  split at h
  · cases h; simp [fiveAbsent]
  · simp at h

theorem fiveAbsent_awsDocs (p : Pg) (d : DocInfo)
    (h : awsDocs.extract p = .ok d) : fiveAbsent d := by
  simp only [awsDocs] at h
  split at h <;> (cases h; simp [fiveAbsent])

theorem fiveAbsent_docsAndDesignTools (p : Pg) (d : DocInfo)
    (h : docsAndDesignTools.extract p = .ok d) : fiveAbsent d := by
  simp only [docsAndDesignTools] at h
  split at h
  · split at h <;> (cases h; simp [fiveAbsent])
  · cases h; simp [fiveAbsent]

theorem fiveAbsent_graphiteFigma (p : Pg) (d : DocInfo)
    (h : graphiteFigma.extract p = .ok d) : fiveAbsent d := by
  simp only [graphiteFigma] at h
  cases h
  simp [fiveAbsent]

theorem fiveAbsent_figmaGithub (p : Pg) (d : DocInfo)
    (h : figmaGithub.extract p = .ok d) : fiveAbsent d := by
  simp only [figmaGithub] at h
  split at h
  · cases h; simp [fiveAbsent]
  · simp at h

theorem fiveAbsent_githubCommit (p : Pg) (d : DocInfo)
    (h : githubCommit.extract p = .ok d) : fiveAbsent d := by
  simp only [githubCommit] at h
  split at h <;> (cases h; simp [fiveAbsent])

theorem fiveAbsent_datadogGeneral (p : Pg) (d : DocInfo)
    (h : datadogGeneral.extract p = .ok d) : fiveAbsent d := by
  simp only [datadogGeneral] at h
  cases h
  simp [fiveAbsent]

theorem fiveAbsent_datadogMonitor (p : Pg) (d : DocInfo)
    (h : datadogMonitor.extract p = .ok d) : fiveAbsent d := by
  simp only [datadogMonitor] at h
  cases h
  simp [fiveAbsent]

theorem fiveAbsent_datadogNotebook (p : Pg) (d : DocInfo)
    (h : datadogNotebook.extract p = .ok d) : fiveAbsent d := by
  simp only [datadogNotebook] at h
  split at h <;> (cases h; simp [fiveAbsent])

theorem fiveAbsent_datadogLogs (p : Pg) (d : DocInfo)
    (h : datadogLogs.extract p = .ok d) : fiveAbsent d := by
  simp only [datadogLogs] at h
  split at h
  · cases h; simp [fiveAbsent]
  · split at h <;> (cases h; simp [fiveAbsent])

theorem fiveAbsent_temporal (p : Pg) (d : DocInfo)
    (h : temporal.extract p = .ok d) : fiveAbsent d := by
  simp only [temporal] at h
  split at h <;> (cases h; simp [fiveAbsent])

theorem fiveAbsent_notion (p : Pg) (d : DocInfo)
    (h : notion.extract p = .ok d) : fiveAbsent d := by
  simp only [notion] at h
  cases h
  simp [fiveAbsent]

theorem fiveAbsent_asana (p : Pg) (d : DocInfo)
    (h : asana.extract p = .ok d) : fiveAbsent d := by
  simp only [asana] at h
  split at h <;> (cases h; simp [fiveAbsent])

theorem fiveAbsent_greenhouse (p : Pg) (d : DocInfo)
    (h : greenhouse.extract p = .ok d) : fiveAbsent d := by
  simp only [greenhouse] at h
  split at h
  · simp at h
  · cases h; simp [fiveAbsent]

theorem fiveAbsent_launchDarkly (p : Pg) (d : DocInfo)
    (h : launchDarkly.extract p = .ok d) : fiveAbsent d := by
  simp only [launchDarkly] at h
  split at h <;> (cases h; simp [fiveAbsent])

theorem fiveAbsent_figmaDeploys (p : Pg) (d : DocInfo)
    (h : figmaDeploys.extract p = .ok d) : fiveAbsent d := by
  simp only [figmaDeploys] at h
  split at h <;> (cases h; simp [fiveAbsent])

theorem fiveAbsent_goodreads (p : Pg) (d : DocInfo)
    (h : goodreads.extract p = .ok d) : fiveAbsent d := by
  simp only [goodreads] at h
  cases h
  simp [fiveAbsent]

theorem slack_extract_cases (p : Pg) (d : DocInfo)
    (h : slack.extract p = .ok d) : fiveAbsent d ∨ fivePresent d := by
  simp only [slack] at h
  split at h
  · cases h; left; simp [fiveAbsent]
  · cases h; right; simp [fivePresent]

/-- Claim C9: for every DocInfo returned by getDocInfo, the five optional
fields html, text, sender, dateString, channelName are all absent or all
present together, and when present the result is the slack rule's
successful extractor output (every other rule, the generic fallback, and
slack's own error fallback carry only link and title). -/
theorem getDocInfo_optional_fields_together (p : Pg) :
    fiveAbsent (getDocInfo p) ∨
      (fivePresent (getDocInfo p) ∧ slack.isMatch p = .ok true ∧
       slack.extract p = .ok (getDocInfo p)) := by
  have hchar := dispatchGo_eq_firstSuccess linkmeRules p
  rw [show dispatchGo linkmeRules p = getDocInfo p from rfl] at hchar
  cases hfs : firstRuleSuccess linkmeRules p with
  | none =>
    left
    rw [hchar, hfs]
    simp [fiveAbsent]
  | some d =>
    have hd : getDocInfo p = d := by rw [hchar, hfs]; rfl
    obtain ⟨r, hr, hm, hx⟩ := firstRuleSuccess_mem hfs
    rw [hd]
    simp only [linkmeRules, List.mem_cons, List.not_mem_nil, or_false] at hr
    rcases hr with rfl | rfl | rfl | rfl | rfl | rfl | rfl | rfl | rfl | rfl |
      rfl | rfl | rfl | rfl | rfl | rfl | rfl | rfl | rfl
    · exact Or.inl (fiveAbsent_graphiteFigma p d hx)
    · exact Or.inl (fiveAbsent_figmaGithub p d hx)
    · exact Or.inl (fiveAbsent_figmaDeploys p d hx)
    · exact Or.inl (fiveAbsent_docsAndDesignTools p d hx)
    · exact Or.inl (fiveAbsent_dropboxPaper p d hx)
    · exact Or.inl (fiveAbsent_amazon p d hx)
    · exact Or.inl (fiveAbsent_awsDocs p d hx)
    · exact Or.inl (fiveAbsent_githubCommit p d hx)
    · exact Or.inl (fiveAbsent_datadogMonitor p d hx)
    · exact Or.inl (fiveAbsent_datadogNotebook p d hx)
    · exact Or.inl (fiveAbsent_datadogLogs p d hx)
    · exact Or.inl (fiveAbsent_datadogGeneral p d hx)
    · exact Or.inl (fiveAbsent_temporal p d hx)
    · exact Or.inl (fiveAbsent_notion p d hx)
    · exact Or.inl (fiveAbsent_asana p d hx)
    · exact Or.inl (fiveAbsent_greenhouse p d hx)
    · exact Or.inl (fiveAbsent_launchDarkly p d hx)
    · exact Or.inl (fiveAbsent_goodreads p d hx)
    · rcases slack_extract_cases p d hx with h5 | h5
      · exact Or.inl h5
      · exact Or.inr ⟨h5, hm, hx⟩

mutual
theorem goE_true (s : Nat) (cond : Elem → Bool) :
    (e : Elem) → goE s cond e true = ((preE e).find? cond, true)
  | .node i t ks => by
    show (if cond (.node i t ks) then (some (.node i t ks), true)
          else goL s cond ks true) = ((Elem.node i t ks :: preL ks).find? cond, true)
    by_cases hc : cond (.node i t ks)
    · rw [if_pos hc, List.find?_cons_of_pos _ hc]
    · rw [if_neg hc, List.find?_cons_of_neg _ (by simpa using hc), goL_true s cond ks]
theorem goL_true (s : Nat) (cond : Elem → Bool) :
    (l : List Elem) → goL s cond l true = ((preL l).find? cond, true)
  | [] => rfl
  | k :: ks => by
    show (match goE s cond k true with
          | (some r, f') => (some r, f')
          | (none, f') => goL s cond ks f') = ((preE k ++ preL ks).find? cond, true)
    rw [goE_true s cond k, List.find?_append]
    cases hf : (preE k).find? cond with
    | some r => simp
    | none => simp [goL_true s cond ks]
end

theorem preE_map_eid_cons (i : Nat) (t : String) (ks : List Elem) :
    (preE (.node i t ks)).map Elem.eid = i :: (preL ks).map Elem.eid := by
  simp [preE, Elem.eid]

theorem preL_map_eid_cons (k : Elem) (ks : List Elem) :
    (preL (k :: ks)).map Elem.eid =
      (preE k).map Elem.eid ++ (preL ks).map Elem.eid := by
  simp [preL]

mutual
theorem goE_false_not (s : Nat) (cond : Elem → Bool) :
    (e : Elem) → s ∉ (preE e).map Elem.eid → goE s cond e false = (none, false)
  | .node i t ks, h => by
    rw [preE_map_eid_cons] at h
    have hi : (i == s) = false := by
      simp at h
      simp [Ne.symm h.1]
    show goL s cond ks (i == s) = (none, false)
    rw [hi]
    exact goL_false_not s cond ks (by simp at h ⊢; exact h.2)
theorem goL_false_not (s : Nat) (cond : Elem → Bool) :
    (l : List Elem) → s ∉ (preL l).map Elem.eid → goL s cond l false = (none, false)
  | [], _ => rfl
  | k :: ks, h => by
    rw [preL_map_eid_cons] at h
    simp at h
    show (match goE s cond k false with
          | (some r, f') => (some r, f')
          | (none, f') => goL s cond ks f') = (none, false)
    rw [goE_false_not s cond k (by simpa using h.1)]
    exact goL_false_not s cond ks (by simpa using h.2)
end

theorem restAfter_cons_start {i : Nat} {t : String} {ks : List Elem} {s : Nat}
    (hi : i = s) : restAfter s (preE (.node i t ks)) = preL ks := by
  simp [restAfter, preE, List.dropWhile_cons, Elem.eid, hi]

theorem restAfter_cons_not_start {i : Nat} {t : String} {ks : List Elem} {s : Nat}
    (hi : i ≠ s) : restAfter s (preE (.node i t ks)) = restAfter s (preL ks) := by
  simp [restAfter, preE, List.dropWhile_cons, Elem.eid, hi]

theorem restAfter_append_mem {s : Nat} {a b : List Elem}
    (h : s ∈ a.map Elem.eid) :
    restAfter s (a ++ b) = restAfter s a ++ b := by
  have hne : a.dropWhile (fun e => !(e.eid == s)) ≠ [] := by
    intro hnil
    rw [List.dropWhile_eq_nil_iff] at hnil
    obtain ⟨x, hx, hxe⟩ := List.mem_map.1 h
    have := hnil x hx
    simp [hxe] at this
  unfold restAfter
  rw [List.dropWhile_append, if_neg (by simpa using hne)]
  cases hd : a.dropWhile (fun e => !(e.eid == s)) with
  | nil => exact absurd hd hne
  | cons x xs => simp

theorem restAfter_append_not_mem {s : Nat} {a b : List Elem}
    (h : s ∉ a.map Elem.eid) :
    restAfter s (a ++ b) = restAfter s b := by
  have hnil : a.dropWhile (fun e => !(e.eid == s)) = [] := by
    rw [List.dropWhile_eq_nil_iff]
    intro x hx
    simp
    intro hxe
    exact absurd (List.mem_map.2 ⟨x, hx, hxe⟩) h
  unfold restAfter
  rw [List.dropWhile_append, if_pos (by simp [hnil])]

mutual
theorem goE_false_mem (s : Nat) (cond : Elem → Bool) :
    (e : Elem) → s ∈ (preE e).map Elem.eid →
    goE s cond e false = ((restAfter s (preE e)).find? cond, true)
  | .node i t ks, h => by
    show goL s cond ks (i == s) = _
    by_cases hi : i = s
    · rw [show (i == s) = true by simp [hi], goL_true s cond ks,
        restAfter_cons_start hi]
    · rw [preE_map_eid_cons] at h
      simp at h
      have hks : s ∈ (preL ks).map Elem.eid := by
        rcases h with h | h
        · exact absurd h.symm hi
        · simpa using h
      rw [show (i == s) = false by simp [hi], goL_false_mem s cond ks hks,
        restAfter_cons_not_start hi]
theorem goL_false_mem (s : Nat) (cond : Elem → Bool) :
    (l : List Elem) → s ∈ (preL l).map Elem.eid →
    goL s cond l false = ((restAfter s (preL l)).find? cond, true)
  | [], h => by simp [preL] at h
  | k :: ks, h => by
    show (match goE s cond k false with
          | (some r, f') => (some r, f')
          | (none, f') => goL s cond ks f') = _
    have hsplit : preL (k :: ks) = preE k ++ preL ks := by simp [preL]
    by_cases h1 : s ∈ (preE k).map Elem.eid
    · rw [goE_false_mem s cond k h1, hsplit, restAfter_append_mem h1,
        List.find?_append]
      cases hf : (restAfter s (preE k)).find? cond with
      | some r => simp
      | none => simp [goL_true s cond ks]
    · rw [goE_false_not s cond k h1, hsplit, restAfter_append_not_mem h1]
      have h2 : s ∈ (preL ks).map Elem.eid := by
        rw [preL_map_eid_cons] at h
        rcases List.mem_append.1 h with h | h
        · exact absurd h h1
        · exact h
      exact goL_false_mem s cond ks h2
end

theorem restAfter_ne_start {s : Nat} {l : List Elem}
    (h : (l.map Elem.eid).Nodup) :
    ∀ r ∈ restAfter s l, r.eid ≠ s := by
  intro r hr
  unfold restAfter at hr
  cases hd : l.dropWhile (fun e => !(e.eid == s)) with
  | nil => rw [hd] at hr; simp at hr
  | cons a rest =>
    rw [hd] at hr
    simp at hr
    have ha : a.eid = s := by
      have := List.head?_dropWhile_not (fun e => !(e.eid == s)) l
      rw [hd] at this
      simpa using this
    have hsub0 : List.Sublist (a :: rest) l := by
      rw [← hd]; exact List.dropWhile_sublist _
    have hsub : List.Sublist ((a :: rest).map Elem.eid) (l.map Elem.eid) :=
      List.Sublist.map Elem.eid hsub0
    have hnd : ((a :: rest).map Elem.eid).Nodup := h.sublist hsub
    simp at hnd
    intro hre
    exact hnd.1 r hr (by rw [hre, ha])

/-- Claim C6: `findNextElementDFS` never returns the start element,
even when the condition holds on it — with object identity modelled by
node ids, distinct across the body and documentElement trees — and every
candidate it can return lies strictly after the start element in the
depth-first pre-order of the pass that found it, with the condition
holding on it. -/
theorem findNextElementDFS_excludes_start (body docEl : Elem) (s : Nat)
    (cond : Elem → Bool)
    (h1 : ((preE body).map Elem.eid).Nodup)
    (h2 : ((preE docEl).map Elem.eid).Nodup)
    (r : Elem) (h : findNextElementDFS body docEl s cond = some r) :
    cond r = true ∧ r.eid ≠ s ∧
      (r ∈ restAfter s (preE body) ∨ r ∈ restAfter s (preE docEl)) := by
  unfold findNextElementDFS at h
  have hsecond : (goE s cond docEl false).1 = some r →
      cond r = true ∧ r.eid ≠ s ∧
        (r ∈ restAfter s (preE body) ∨ r ∈ restAfter s (preE docEl)) := by
    intro hgo
    by_cases hm : s ∈ (preE docEl).map Elem.eid
    · rw [goE_false_mem s cond docEl hm] at hgo
      simp at hgo
      exact ⟨List.find?_some hgo, restAfter_ne_start h2 r (List.mem_of_find?_eq_some hgo),
        Or.inr (List.mem_of_find?_eq_some hgo)⟩
    · rw [goE_false_not s cond docEl hm] at hgo
      simp at hgo
  by_cases hb : s ∈ (preE body).map Elem.eid
  · rw [goE_false_mem s cond body hb] at h
    cases hf : (restAfter s (preE body)).find? cond with
    | some r0 =>
      rw [hf] at h
      simp at h
      subst h
      exact ⟨List.find?_some hf, restAfter_ne_start h1 r0 (List.mem_of_find?_eq_some hf),
        Or.inl (List.mem_of_find?_eq_some hf)⟩
    | none =>
      rw [hf] at h
      simp at h
      exact hsecond h
  · rw [goE_false_not s cond body hb] at h
    simp at h
    exact hsecond h

theorem findNextElementDFS_excludes_start_witness :
    (fun _ : Elem => true) (Elem.node 1 "a" []) = true ∧
    findNextElementDFS c6Body c6DocEl 1 (fun _ => true)
      = some (Elem.node 2 "b" []) ∧
    (Elem.node 2 "b" []).eid ≠ 1 :=
  ⟨rfl, rfl,
    (findNextElementDFS_excludes_start c6Body c6DocEl 1 (fun _ => true)
      (by decide) (by decide) (Elem.node 2 "b" []) rfl).2.1⟩

mutual
theorem maxIdE_bound : (e : Elem) → ∀ x ∈ preE e, x.eid ≤ maxIdE e
  | .node i t ks, x, hx => by
    rw [preE] at hx
    rcases List.mem_cons.1 hx with h | h
    · subst h
      simp [Elem.eid, maxIdE]
    · have := maxIdL_bound ks x h
      simp [maxIdE]
      omega
theorem maxIdL_bound : (l : List Elem) → ∀ x ∈ preL l, x.eid ≤ maxIdL l
  | k :: ks, x, hx => by
    rw [preL] at hx
    rcases List.mem_append.1 hx with h | h
    · have := maxIdE_bound k x h
      simp [maxIdL]
      omega
    · have := maxIdL_bound ks x h
      simp [maxIdL]
      omega
end

theorem freshId_not_mem (root : Elem) :
    freshId root ∉ (preE root).map Elem.eid := by
  intro h
  obtain ⟨x, hx, hxe⟩ := List.mem_map.1 h
  have := maxIdE_bound root x hx
  rw [hxe] at this
  unfold freshId at this
  omega

mutual
theorem remIdE_notmem (did : Nat) :
    (e : Elem) → did ∉ (preE e).map Elem.eid → remIdE did e = e
  | .node i t ks, h => by
    show Elem.node i t (remIdL did ks) = Elem.node i t ks
    rw [remIdL_notmem did ks (by rw [preE_map_eid_cons] at h; simp at h; simpa using h.2)]
theorem remIdL_notmem (did : Nat) :
    (l : List Elem) → did ∉ (preL l).map Elem.eid → remIdL did l = l
  | [], _ => rfl
  | k :: ks, h => by
    rw [preL_map_eid_cons] at h
    have h1 : did ∉ (preE k).map Elem.eid := fun hc => h (List.mem_append.2 (Or.inl hc))
    have h2 : did ∉ (preL ks).map Elem.eid := fun hc => h (List.mem_append.2 (Or.inr hc))
    have hk : k.eid ≠ did := by
      intro hke
      apply h1
      cases k with
      | node i t ks' =>
        rw [preE_map_eid_cons]
        simp [Elem.eid] at hke ⊢
        exact Or.inl hke.symm
    show (if k.eid == did then remIdL did ks else remIdE did k :: remIdL did ks) = k :: ks
    rw [if_neg (by simpa using hk), remIdE_notmem did k h1, remIdL_notmem did ks h2]
end

theorem updBodyE_fst_eid (f : Elem → Elem) (hf : ∀ e, (f e).eid = e.eid) (e : Elem) :
    ((updBodyE f e).1).eid = e.eid := by
  cases e with
  | node i t ks =>
    show ((if t == "body" then (f (.node i t ks), true)
      else match updBodyL f ks with
        | (ks', done) => (.node i t ks', done)).1).eid = _
    by_cases ht : t == "body"
    · simp only [if_pos ht]
      exact hf _
    · simp only [if_neg ht]
      cases updBodyL f ks with
      | mk ks' done => rfl

mutual
theorem remUpd_e (did : Nat) (dummy : Elem) (hd : dummy.eid = did) :
    (e : Elem) → did ∉ (preE e).map Elem.eid →
    remIdE did (updBodyE (insertFirstKid dummy) e).1 = e
  | .node i t ks, h => by
    rw [preE_map_eid_cons] at h
    simp at h
    by_cases ht : t == "body"
    · show remIdE did ((if t == "body" then (insertFirstKid dummy (.node i t ks), true)
        else match updBodyL (insertFirstKid dummy) ks with
          | (ks', done) => (.node i t ks', done)).1) = _
      rw [if_pos ht]
      show Elem.node i t (remIdL did (dummy :: ks)) = Elem.node i t ks
      have hdid : (dummy.eid == did) = true := by simp [hd]
      show Elem.node i t
        (if dummy.eid == did then remIdL did ks else remIdE did dummy :: remIdL did ks)
        = Elem.node i t ks
      rw [if_pos (by simpa using hdid), remIdL_notmem did ks (by simpa using h.2)]
    · show remIdE did ((if t == "body" then (insertFirstKid dummy (.node i t ks), true)
        else match updBodyL (insertFirstKid dummy) ks with
          | (ks', done) => (.node i t ks', done)).1) = _
      rw [if_neg ht]
      cases hu : updBodyL (insertFirstKid dummy) ks with
      | mk ks' done =>
        show remIdE did (Elem.node i t ks') = Elem.node i t ks
        show Elem.node i t (remIdL did ks') = Elem.node i t ks
        have := remUpd_l did dummy hd ks (by simpa using h.2)
        rw [hu] at this
        rw [this]
theorem remUpd_l (did : Nat) (dummy : Elem) (hd : dummy.eid = did) :
    (l : List Elem) → did ∉ (preL l).map Elem.eid →
    remIdL did (updBodyL (insertFirstKid dummy) l).1 = l
  | [], _ => rfl
  | k :: ks, h => by
    rw [preL_map_eid_cons] at h
    have h1 : did ∉ (preE k).map Elem.eid := fun hc => h (List.mem_append.2 (Or.inl hc))
    have h2 : did ∉ (preL ks).map Elem.eid := fun hc => h (List.mem_append.2 (Or.inr hc))
    have hk : k.eid ≠ did := by
      intro hke
      apply h1
      cases k with
      | node i t ks' =>
        rw [preE_map_eid_cons]
        simp [Elem.eid] at hke ⊢
        exact Or.inl hke.symm
    cases hu : updBodyE (insertFirstKid dummy) k with
    | mk k' done =>
      cases done
      · simp only [updBodyL, hu]
        cases hu2 : updBodyL (insertFirstKid dummy) ks with
        | mk ks' d2 =>
          simp only [hu2]
          show remIdL did (k :: ks') = k :: ks
          show (if k.eid == did then remIdL did ks'
            else remIdE did k :: remIdL did ks') = k :: ks
          have hrec := remUpd_l did dummy hd ks h2
          rw [hu2] at hrec
          simp only [] at hrec
          rw [if_neg (by simpa using hk), remIdE_notmem did k h1, hrec]
      · simp only [updBodyL, hu]
        show remIdL did (k' :: ks) = k :: ks
        have hk' : k'.eid = k.eid := by
          have := updBodyE_fst_eid (insertFirstKid dummy)
            (fun e => by cases e; rfl) k
          rw [hu] at this
          exact this
        have hrec := remUpd_e did dummy hd k h1
        rw [hu] at hrec
        simp only [] at hrec
        show (if k'.eid == did then remIdL did ks
          else remIdE did k' :: remIdL did ks) = k :: ks
        rw [if_neg (by simp [hk']; exact hk), hrec, remIdL_notmem did ks h2]
end

/-- Claim C7: `findFirstInWholeDFS` restores the document on every exit
path — match found, no match, or a throwing condition (the result being
an `Except` value covers the exception path) — so the tree after the call
is exactly the tree before it, with no residual synthetic node. -/
theorem findFirstInWholeDFS_restores (root : Elem) (cond : Elem → Except Unit Bool) :
    (findFirstInWholeDFS root cond).2 = root := by
  unfold findFirstInWholeDFS
  cases hb : findBody root with
  | none => rfl
  | some b =>
    show remIdE (freshId root) (updBodyE (insertFirstKid (Elem.node (freshId root) "div" [])) root).1 = root
    exact remUpd_e (freshId root) (Elem.node (freshId root) "div" []) rfl root
      (freshId_not_mem root)
